import Mathlib

/-!
Verification of the sitemap-diff feed manager.

The definitions below are a shallow embedding of `src/services/rss-manager.js`
and of the XML-scanner functions (`parseXMLCompat`, `extractURLs`,
`extractSitemapUrls`, `isValidSitemap`) that the manager imports.  The
JavaScript regex scans are modelled as recursive functions over `List Char`
that follow the backtracking behaviour of the concrete regexes used by the
source (`/<loc[^>]*>(.*?)<\/loc>/gi`, `/<url[^>]*>(.*?)<\/url>/gis`,
`/<sitemap[^>]*>(.*?)<\/sitemap>/gis`, `/<([^>\s]+)([^>]*)>/`,
`/<\?xml[^>]*>/i`, `/xmlns=["']([^"']*)["']/i`).  Machine arithmetic in the
djb2 hash is modelled over `Int`/`Nat` with explicit 2^32 wrapping.
-/

set_option maxRecDepth 4000

namespace SitemapDiff

/-- Line terminators excluded by a JavaScript `.` when the `s` flag is absent. -/
def isLineTerm (c : Char) : Bool :=
  c = '\n' || c = '\r' || c = ' ' || c = ' '

/-- Character class of the JavaScript `\s` (whitespace) used by `[^>\s]` and
`String.prototype.trim`. -/
def isJsSpace (c : Char) : Bool :=
  [' ', '\t', '\n', '\r', '\x0b', '\x0c', ' ', ' ', ' ',
   ' ', ' ', ' ', '　', '﻿'].contains c
  || (decide (' ' ≤ c) && decide (c ≤ ' '))

/-- ASCII lower-casing of one character, as performed by
`String.prototype.toLowerCase` on ASCII input (non-ASCII case mappings are
outside the URLs this code handles and are modelled as the identity). -/
def lowerChar (c : Char) : Char :=
  if 'A' ≤ c ∧ c ≤ 'Z' then Char.ofNat (c.toNat + 32) else c

/-- Matches a literal pattern case-insensitively at the head of the input and
returns the remaining input on success. -/
def matchCI : List Char → List Char → Option (List Char)
  | [], rest => some rest
  | _ :: _, [] => none
  | p :: ps, c :: cs => if lowerChar p = lowerChar c then matchCI ps cs else none

/-- Consumes `[^>]*>` : drops characters up to and including the first `>`,
failing when no `>` remains. -/
def takeToGt : List Char → Option (List Char)
  | [] => none
  | c :: cs => if c = '>' then some cs else takeToGt cs

/-- Lazy body search of `(.*?)` followed by a literal closing tag: returns the
shortest body (crossing no line terminator unless `dotall`) together with the
input after the closing literal. -/
def findClose (close : List Char) (dotall : Bool) : List Char → Option (List Char × List Char)
  | [] => none
  | c :: cs =>
    match matchCI close (c :: cs) with
    | some rest => some ([], rest)
    | none =>
      if !dotall && isLineTerm c then none
      else
        match findClose close dotall cs with
        | some (b, r) => some (c :: b, r)
        | none => none

/-- Global scan of `/<TAG[^>]*>(.*?)<\/TAG>/` (flags `gi`, plus `s` when
`dotall`): the JavaScript engine tries each start position from left to right
and resumes after the end of every successful match.  Called with
`fuel = input.length`, which every step strictly decreases below. -/
def scanPairs (op clos : List Char) (dotall : Bool) : Nat → List Char → List String
  | 0, _ => []
  | _ + 1, [] => []
  | fuel + 1, c :: cs =>
    match matchCI op (c :: cs) with
    | some afterOp =>
      match takeToGt afterOp with
      | some afterGt =>
        match findClose clos dotall afterGt with
        | some (body, rest) => String.mk body :: scanPairs op clos dotall fuel rest
        | none => scanPairs op clos dotall fuel cs
      | none => scanPairs op clos dotall fuel cs
    | none => scanPairs op clos dotall fuel cs

/-- First match of `/<TAG[^>]*>(.*?)<\/TAG>/i` (no `s` flag), as used by the
`querySelector` closures inside `parseXMLCompat`. -/
def firstPair (op clos : List Char) : Nat → List Char → Option String
  | 0, _ => none
  | _ + 1, [] => none
  | fuel + 1, c :: cs =>
    match matchCI op (c :: cs) with
    | some afterOp =>
      match takeToGt afterOp with
      | some afterGt =>
        match findClose clos false afterGt with
        | some (body, _) => some (String.mk body)
        | none => firstPair op clos fuel cs
      | none => firstPair op clos fuel cs
    | none => firstPair op clos fuel cs

/-- Drops leading JavaScript whitespace. -/
def trimStartList : List Char → List Char
  | [] => []
  | c :: cs => if isJsSpace c then trimStartList cs else c :: cs

/-- Model of `String.prototype.trim`. -/
def jsTrim (s : String) : String :=
  String.mk ((trimStartList (trimStartList s.data).reverse).reverse)

/-- Model of `removal of the XML declaration`:
`xmlString.replace(/<\?xml[^>]*>/i, '')` deletes the first occurrence of
`<?xml` up to the following `>`. -/
def stripXmlDecl : Nat → List Char → List Char
  | 0, l => l
  | _ + 1, [] => []
  | fuel + 1, c :: cs =>
    match matchCI "<?xml".data (c :: cs) with
    | some after =>
      match takeToGt after with
      | some rest => rest
      | none => c :: stripXmlDecl fuel cs
    | none => c :: stripXmlDecl fuel cs

/-- First match of `/<([^>\s]+)([^>]*)>/`: returns (group 1, group 2).  The
match starts at the first `<` followed by a character that is neither `>` nor
whitespace and requires a later `>`. -/
def rootScan : Nat → List Char → Option (List Char × List Char)
  | 0, _ => none
  | _ + 1, [] => none
  | fuel + 1, c :: cs =>
    if c = '<' then
      match cs with
      | [] => none
      | d :: _ =>
        if d ≠ '>' ∧ isJsSpace d = false then
          let g1 := cs.takeWhile (fun x => x != '>' && !isJsSpace x)
          let rest1 := cs.dropWhile (fun x => x != '>' && !isJsSpace x)
          let g2 := rest1.takeWhile (fun x => x != '>')
          match rest1.dropWhile (fun x => x != '>') with
          | '>' :: _ => some (g1, g2)
          | _ => rootScan fuel cs
        else rootScan fuel cs
    else rootScan fuel cs

/-- Root element of `parseXMLCompat`: XML declaration stripped, then the first
tag-like match; the tag name is lower-cased, the raw attribute text kept. -/
def rootScanOf (s : String) : Option (List Char × List Char) :=
  let stripped := stripXmlDecl s.data.length s.data
  rootScan stripped.length stripped

/-- Lower-cased tag name of `doc.documentElement`, `none` when the document has
no tag-like content (`documentElement` is `null`). -/
def rootTagName (s : String) : Option String :=
  (rootScanOf s).map (fun p => String.mk (p.1.map lowerChar))

/-- Raw attribute text (regex group 2) of the root tag. -/
def rootAttrsRaw (s : String) : Option (List Char) :=
  (rootScanOf s).map (fun p => p.2)

/-- Modelled from the spec: `classifyRoot(xml) → "urlset" | "sitemapindex" |
"unknown"`.  The source has no such function; it inlines
`parseXML(content).documentElement?.tagName?.toLowerCase()` and compares the
result against the two known root names, which this wrapper packages with the
spec's `"unknown"` for every other outcome. -/
def classifyRoot (s : String) : String :=
  match rootTagName s with
  | some t => if t = "urlset" ∨ t = "sitemapindex" then t else "unknown"
  | none => "unknown"

/-- First match of `/NAME=["']([^"']*)["']/i` over the root tag's attribute
text, as in `getAttribute` of `parseXMLCompat`. -/
def findAttr (nm : List Char) : Nat → List Char → Option String
  | 0, _ => none
  | _ + 1, [] => none
  | fuel + 1, c :: cs =>
    match matchCI (nm ++ ['=']) (c :: cs) with
    | some rest =>
      match rest with
      | q :: rs =>
        if q = '"' ∨ q = '\'' then
          let v := rs.takeWhile (fun x => x != '"' && x != '\'')
          match rs.dropWhile (fun x => x != '"' && x != '\'') with
          | _ :: _ => some (String.mk v)
          | [] => findAttr nm fuel cs
        else findAttr nm fuel cs
      | [] => findAttr nm fuel cs
    | none => findAttr nm fuel cs

/-- Case-sensitive substring test, model of `String.prototype.includes`. -/
def containsSub (needle : List Char) : Nat → List Char → Bool
  | 0, l => needle.isPrefixOf l
  | fuel + 1, l =>
    if needle.isPrefixOf l then true
    else
      match l with
      | [] => false
      | _ :: cs => containsSub needle fuel cs

/-- Model of `extractURLs` (xml-parser): every `<loc…>…</loc>` body in document
order, trimmed, empty matches skipped. -/
def extractURLs (xmlContent : String) : List String :=
  ((scanPairs "<loc".data "</loc>".data false xmlContent.data.length
      xmlContent.data).map jsTrim).filter (fun u => u ≠ "")

/-- Model of `extractSitemapUrls`: for every `<sitemap…>…</sitemap>` block the
first `<loc…>…</loc>` body inside it, trimmed, empties skipped. -/
def extractSitemapUrls (xmlContent : String) : List String :=
  (scanPairs "<sitemap".data "</sitemap>".data true xmlContent.data.length
      xmlContent.data).filterMap (fun block =>
    match firstPair "<loc".data "</loc>".data block.data.length block.data with
    | some t => let u := jsTrim t; if u = "" then none else some u
    | none => none)

/-- The `<url…>…</url>` blocks of a document (`querySelectorAll('url')`). -/
def urlBlocks (xmlContent : String) : List String :=
  scanPairs "<url".data "</url>".data true xmlContent.data.length xmlContent.data

/-- The `<sitemap…>…</sitemap>` blocks of a document. -/
def sitemapBlocks (xmlContent : String) : List String :=
  scanPairs "<sitemap".data "</sitemap>".data true xmlContent.data.length xmlContent.data

/-- Model of `isValidSitemap`: root must be `urlset` (with at least one `url`
block) or `sitemapindex` (with at least one `sitemap` block) and carry an
`xmlns` attribute containing `sitemaps.org`. -/
def isValidSitemap (xmlContent : String) : Bool :=
  match rootTagName xmlContent, rootAttrsRaw xmlContent with
  | some tag, some attrs =>
    if tag = "urlset" then
      match findAttr "xmlns".data attrs.length attrs with
      | some ns =>
        ns != "" && containsSub "sitemaps.org".data ns.data.length ns.data
          && !(urlBlocks xmlContent).isEmpty
      | none => false
    else if tag = "sitemapindex" then
      match findAttr "xmlns".data attrs.length attrs with
      | some ns =>
        ns != "" && containsSub "sitemaps.org".data ns.data.length ns.data
          && !(sitemapBlocks xmlContent).isEmpty
      | none => false
    else false
  | _, _ => false

/-! ## The djb2 URL hash (`generateUrlHash`) -/

/-- JavaScript `ToInt32`: wrap into `[-2^31, 2^31)`. -/
def toInt32 (n : Int) : Int :=
  let m := n % 4294967296
  if m < 2147483648 then m else m - 4294967296

/-- One loop iteration of `generateUrlHash`:
`hash = ((hash << 5) + hash) + charCode`.  `hash << 5` converts to int32 and
shifts with 32-bit wrap-around; the two additions are IEEE-double additions,
exact below 2^53 and modelled as exact integer additions. -/
def hashStep (h : Int) (c : Nat) : Int := toInt32 (toInt32 h * 32) + h + (c : Int)

/-- The hash loop over the normalized URL, seed 5381.  Characters stand for
UTF-16 code units (`charCodeAt`); code points beyond the BMP do not occur in
the URLs handled here. -/
def djb2 (l : List Char) : Int := l.foldl (fun h c => hashStep h c.toNat) 5381

/-- JavaScript `>>> 0`: wrap into `[0, 2^32)`. -/
def toUint32 (n : Int) : Nat := (n % 4294967296).toNat

/-- Digit characters of `Number.prototype.toString(36)`. -/
def base36Digit (n : Nat) : Char :=
  if n < 10 then Char.ofNat (48 + n) else Char.ofNat (87 + n)

/-- Base-36 digit accumulation (64 digits of fuel cover every `Nat < 2^32`). -/
def base36Aux : Nat → Nat → List Char → List Char
  | 0, _, acc => acc
  | fuel + 1, n, acc =>
    if n = 0 then acc else base36Aux fuel (n / 36) (base36Digit (n % 36) :: acc)

/-- Model of `(hash >>> 0).toString(36)`. -/
def toBase36 (n : Nat) : String :=
  if n = 0 then "0" else String.mk (base36Aux 64 n [])

/-- URL normalization of `generateUrlHash`:
`url.toLowerCase().replace(/\/$/, '')` — lower-case, then drop a single
trailing slash. -/
def normChars (l : List Char) : List Char :=
  let m := l.map lowerChar
  if m.getLast? = some '/' then m.dropLast else m

/-- Model of `generateUrlHash`. -/
def generateUrlHash (url : String) : String :=
  toBase36 (toUint32 (djb2 (normChars url.data)))

/-! ## The key-value store and the manager state

The Cloudflare KV store maps string keys to string values.  The manager writes
two shapes of value: raw sitemap text, and (under `rss_feeds`) the
`JSON.stringify` of an array of strings.  `Val` distinguishes the two so that
`JSON.parse` in `getFeeds` is exact by construction; `valToString` is the
string a `kv.get` returns for the value. -/

inductive Val where
  | str (s : String)
  | arr (l : List String)
deriving DecidableEq

/-- JSON string escaping of `JSON.stringify` (quote, backslash and the common
control characters; other control characters do not occur in URLs). -/
def jsonEscape : List Char → List Char
  | [] => []
  | c :: cs =>
    (if c = '"' then ['\\', '"']
     else if c = '\\' then ['\\', '\\']
     else if c = '\n' then ['\\', 'n']
     else if c = '\r' then ['\\', 'r']
     else if c = '\t' then ['\\', 't']
     else [c]) ++ jsonEscape cs

/-- `JSON.stringify` of an array of strings. -/
def jsonStringifyArr (l : List String) : String :=
  "[" ++ String.intercalate "," (l.map (fun s => "\"" ++ String.mk (jsonEscape s.data) ++ "\"")) ++ "]"

/-- The string a `kv.get` returns for a stored value. -/
def valToString : Val → String
  | .str s => s
  | .arr l => jsonStringifyArr l

/-- JavaScript truthiness of a `kv.get` result (`null` and `""` are falsy). -/
def valTruthy : Option Val → Bool
  | none => false
  | some v => valToString v ≠ ""

/-- The external world: the HTTP fetch (returning the response text after
optional gzip decompression, `none` for a non-2xx status, transport or
decompression failure), the WHATWG-URL resolution
`new URL(sub, new URL(index).origin).href` used for relative child sitemaps
(`none` when the constructor throws), and today's `YYYYMMDD` date string. -/
structure World where
  fetch : String → Option String
  resolveChild : String → String → Option String
  today : String

/-- Manager state: the key-value store plus a log of the URLs fetched so far
(most recent first).  The log is ghost state recording network activity; no
code path reads it. -/
structure St where
  kv : String → Option Val
  fetched : List String

/-- `kv.put`. -/
def putKV (st : St) (k : String) (v : Val) : St :=
  { st with kv := fun k' => if k' = k then some v else st.kv k' }

/-- `kv.get` as the string the JavaScript code sees. -/
def jsGet (st : St) (k : String) : Option String := (st.kv k).map valToString

/-- The storage key of the monitored-feeds array. -/
def feedsKey : String := "rss_feeds"

/-- Model of `getFeeds`: `JSON.parse` of the stored array, `[]` when the key is
absent, empty, or does not hold an array (the `catch` path). -/
def getFeeds (st : St) : List String :=
  match st.kv feedsKey with
  | some (.arr l) => l
  | _ => []

/-- Result object returned by `downloadSitemap` / `processSitemapIndex` /
`addFeed`.  Fields absent from a given JavaScript return object are `none`
(the property is `undefined`).  `isIndex` is included because the Telegram
handler reads `result.isIndex`; no constructor in the manager ever sets it. -/
structure DLResult where
  success : Bool
  errorMsg : String
  datedFile : Option String := none
  newUrls : List String := []
  subSitemaps : Option Nat := none
  successCount : Option Nat := none
  errorCount : Option Nat := none
  newFeedsAdded : Option Nat := none
  isIndex : Option Bool := none
deriving DecidableEq

/-- Result of `removeFeed`. -/
structure RemoveResult where
  success : Bool
  errorMsg : String
deriving DecidableEq

/-- Resolution of one child sitemap URL: used as-is when it starts with
`http` (`String.prototype.startsWith`, modelled as a character-prefix test),
otherwise resolved against the index's origin (`none` when the URL
constructor throws and the per-child `catch` fires). -/
def resolveSub (w : World) (indexUrl subUrl : String) : Option String :=
  if "http".data.isPrefixOf subUrl.data then some subUrl
  else w.resolveChild indexUrl subUrl

/-- Accumulator of the `for (const subUrl of subSitemaps)` loop in
`processSitemapIndex`. -/
structure LoopAcc where
  totalNewUrls : List String
  successCount : Nat
  errorCount : Nat
  feeds : List String
  newFeedsAdded : Nat

/-- The child loop of `processSitemapIndex`, parameterized by the download
function used for the recursive `downloadSitemap` call. -/
def childLoop (w : World) (dl : String → St → DLResult × St) (indexUrl : String) :
    (subs : List String) → LoopAcc → St → LoopAcc × St
  | [], acc, st => (acc, st)
  | sub :: rest, acc, st =>
    match resolveSub w indexUrl sub with
    | none => childLoop w dl indexUrl rest { acc with errorCount := acc.errorCount + 1 } st
    | some absoluteUrl =>
      let acc1 :=
        if acc.feeds.contains absoluteUrl then acc
        else { acc with feeds := acc.feeds ++ [absoluteUrl],
                        newFeedsAdded := acc.newFeedsAdded + 1 }
      let r := dl absoluteUrl st
      let acc2 :=
        if r.1.success then
          { acc1 with successCount := acc1.successCount + 1,
                      totalNewUrls :=
                        if r.1.newUrls ≠ [] then acc1.totalNewUrls ++ r.1.newUrls
                        else acc1.totalNewUrls }
        else { acc1 with errorCount := acc1.errorCount + 1 }
      childLoop w dl indexUrl rest acc2 r.2
termination_by structural subs => subs

/-- Model of `processSitemapIndex`, parameterized by the download function so
that `downloadSitemap` below can recurse on a smaller fuel. -/
def processSitemapIndexGo (w : World) (dl : String → St → DLResult × St)
    (indexUrl indexContent : String) (st : St) : DLResult × St :=
  let subs := extractSitemapUrls indexContent
  if subs.isEmpty then
    ({ success := false, errorMsg := "sitemap索引中没有找到子sitemap", newUrls := [] }, st)
  else
    let feeds := getFeeds st
    let res := childLoop w dl indexUrl subs ⟨[], 0, 0, feeds, 0⟩ st
    let acc := res.1
    let st2 := if acc.newFeedsAdded > 0 then putKV res.2 feedsKey (.arr acc.feeds) else res.2
    ({ success := true,
       errorMsg := "处理完成: 成功" ++ toString acc.successCount ++ "个, 失败"
         ++ toString acc.errorCount ++ "个, 新增" ++ toString acc.newFeedsAdded ++ "个监控",
       newUrls := acc.totalNewUrls,
       subSitemaps := some subs.length,
       successCount := some acc.successCount,
       errorCount := some acc.errorCount,
       newFeedsAdded := some acc.newFeedsAdded }, st2)

/-- Model of `compareSitemaps`: URLs of the first content whose exact string
does not occur among the URLs of the second (`Array.prototype.includes`). -/
def compareSitemaps (currentContent oldContent : String) : List String :=
  let currentUrls := extractURLs currentContent
  let oldUrls := extractURLs oldContent
  currentUrls.filter (fun url => !oldUrls.contains url)

/-- Model of `downloadSitemap`.  The `Nat` fuel bounds the recursion through
nested sitemap indexes; the JavaScript original recurses unboundedly and a
run that exhausts the stack surfaces as the catch-all failure result, which
is what fuel `0` returns. -/
def downloadSitemap (w : World) : Nat → String → Bool → St → DLResult × St
  | 0, _, _, st =>
    ({ success := false, errorMsg := "下载失败: 递归深度超限", datedFile := none, newUrls := [] }, st)
  | fuel + 1, url, forceUpdate, st =>
    let urlHash := generateUrlHash url
    let lastUpdateKey := "last_update_" ++ urlHash
    let lastUpdate := jsGet st lastUpdateKey
    if forceUpdate = false ∧ lastUpdate = some w.today then
      -- already updated today: compare the stored generations, mutate nothing
      let currentContent := st.kv ("sitemap_current_" ++ urlHash)
      let latestContent := st.kv ("sitemap_latest_" ++ urlHash)
      if valTruthy currentContent ∧ valTruthy latestContent then
        let newUrls := compareSitemaps (valToString (currentContent.getD (.str "")))
          (valToString (latestContent.getD (.str "")))
        if newUrls.length > 0 then
          ({ success := true,
             errorMsg := "今日已更新，发现 " ++ toString newUrls.length ++ " 个新URL",
             datedFile := none, newUrls := newUrls }, st)
        else
          ({ success := true, errorMsg := "今日已更新，无新内容",
             datedFile := none, newUrls := [] }, st)
      else
        ({ success := true, errorMsg := "今日已更新过此sitemap",
           datedFile := none, newUrls := [] }, st)
    else
      match w.fetch url with
      | none =>
        -- non-2xx status, network or decompression failure; caught and reported
        -- (the JavaScript message interpolates the exception text)
        ({ success := false, errorMsg := "下载失败: HTTP错误或网络异常",
           datedFile := none, newUrls := [] }, { st with fetched := url :: st.fetched })
      | some newContent =>
        let st1 : St := { st with fetched := url :: st.fetched }
        if rootTagName newContent = some "sitemapindex" then
          processSitemapIndexGo w (fun u s => downloadSitemap w fuel u false s) url newContent st1
        else
          let currentContent := st1.kv ("sitemap_current_" ++ urlHash)
          let st2 :=
            if valTruthy currentContent then
              putKV st1 ("sitemap_latest_" ++ urlHash) (currentContent.getD (.str ""))
            else st1
          let newUrls :=
            if valTruthy currentContent then
              compareSitemaps newContent (valToString (currentContent.getD (.str "")))
            else []
          let st3 := putKV st2 ("sitemap_current_" ++ urlHash) (.str newContent)
          let st4 := putKV st3 ("sitemap_dated_" ++ urlHash ++ "_" ++ w.today) (.str newContent)
          let st5 := putKV st4 lastUpdateKey (.str w.today)
          ({ success := true, errorMsg := "",
             datedFile := some ("sitemap_dated_" ++ urlHash ++ "_" ++ w.today),
             newUrls := newUrls }, st5)

/-- Model of `processSitemapIndex` at a given recursion fuel for the child
downloads. -/
def processSitemapIndex (w : World) (fuel : Nat) (indexUrl indexContent : String) (st : St) :
    DLResult × St :=
  processSitemapIndexGo w (fun u s => downloadSitemap w fuel u false s) indexUrl indexContent st

/-- Model of `addFeed`. -/
def addFeed (w : World) (fuel : Nat) (url : String) (forceUpdate : Bool) (st : St) :
    DLResult × St :=
  let feeds := getFeeds st
  if feeds.contains url then
    let r := downloadSitemap w fuel url forceUpdate st
    if r.1.success then
      ({ r.1 with errorMsg := if forceUpdate then "强制更新完成" else "已存在的feed更新成功" }, r.2)
    else r
  else
    let r := downloadSitemap w fuel url forceUpdate st
    if r.1.success then
      let st2 := putKV r.2 feedsKey (.arr (feeds ++ [url]))
      ({ r.1 with errorMsg := if r.1.errorMsg = "" then "成功添加" else r.1.errorMsg }, st2)
    else r

/-- Model of `removeFeed`: `splice(indexOf(url), 1)` removes the first
occurrence, i.e. `List.erase`. -/
def removeFeed (st : St) (url : String) : RemoveResult × St :=
  let feeds := getFeeds st
  if feeds.contains url then
    ({ success := true, errorMsg := "" }, putKV st feedsKey (.arr (feeds.erase url)))
  else
    ({ success := false, errorMsg := "该RSS订阅不存在" }, st)

/-- Model of `getSitemapContent` (returning the string the caller receives;
`none` both for a missing key and for the unknown-type `catch` path).  An
empty `date` argument is falsy and defaults to today. -/
def getSitemapContent (w : World) (st : St) (url : String) (type : String)
    (date : Option String) : Option String :=
  let urlHash := generateUrlHash url
  if type = "current" then jsGet st ("sitemap_current_" ++ urlHash)
  else if type = "latest" then jsGet st ("sitemap_latest_" ++ urlHash)
  else if type = "dated" then
    let d := match date with
      | none => w.today
      | some d0 => if d0 = "" then w.today else d0
    jsGet st ("sitemap_dated_" ++ urlHash ++ "_" ++ d)
  else none

/-- Specification-side description of the child loop of `processSitemapIndex`,
stated from the spec's words for the refinement claim about `expandIndex`:
the per-child outcomes in document order — `none` for a child whose URL
resolution throws, otherwise the resolved absolute URL paired with the result
of the full download cycle run on the state threaded left to right. -/
def specChildOutcomes (w : World) (dl : String → St → DLResult × St) (indexUrl : String) :
    (subs : List String) → St → List (Option (String × DLResult)) × St
  | [], st => ([], st)
  | sub :: rest, st =>
    match resolveSub w indexUrl sub with
    | none =>
      let r := specChildOutcomes w dl indexUrl rest st
      (none :: r.1, r.2)
    | some a =>
      let d := dl a st
      let r := specChildOutcomes w dl indexUrl rest d.2
      (some (a, d.1) :: r.1, r.2)
termination_by structural subs => subs

/-- New URLs reported by the successful children, concatenated in order. -/
def successNewUrls (os : List (Option (String × DLResult))) : List String :=
  (os.filterMap (fun o => match o with
    | some (_, r) => if r.success then some r.newUrls else none
    | none => none)).flatten

/-- Number of children whose download cycle succeeded. -/
def okCount (os : List (Option (String × DLResult))) : Nat :=
  os.countP (fun o => match o with
    | some (_, r) => r.success
    | none => false)

/-- Number of children that failed to resolve or whose download failed. -/
def failCount (os : List (Option (String × DLResult))) : Nat :=
  os.countP (fun o => match o with
    | some (_, r) => !r.success
    | none => true)

/-- The four per-feed storage keys of a URL (for today's archive date):
current, latest (the spec's previous), dated archive and last-update. -/
def contentKeys (w : World) (u : String) : List String :=
  ["sitemap_current_" ++ generateUrlHash u,
   "sitemap_latest_" ++ generateUrlHash u,
   "sitemap_dated_" ++ generateUrlHash u ++ "_" ++ w.today,
   "last_update_" ++ generateUrlHash u]

/-- The fetch of `u` succeeds with content that does not classify as a sitemap
index — the only situation in which `downloadSitemap` writes `u`'s own
content keys. -/
def nonIndexFetched (w : World) (u : String) : Prop :=
  ∃ c, w.fetch u = some c ∧ rootTagName c ≠ some "sitemapindex"

/-- Frame property of one state transition: the fetch log grows by a prefix
`l`, and every changed store key is either the feeds key or one of the
content keys of some URL fetched during the transition with non-index
content. -/
def FrameStep (w : World) (st st' : St) : Prop :=
  ∃ l, st'.fetched = l ++ st.fetched ∧
    ∀ k, st'.kv k ≠ st.kv k →
      k = feedsKey ∨ ∃ u ∈ l, nonIndexFetched w u ∧ k ∈ contentKeys w u

/-! ## Concrete fixtures used by witnesses and counterexamples -/

/-- An empty store with an empty fetch log. -/
def stEmpty : St := ⟨fun _ => none, []⟩

/-- A world whose fetch always fails; used where no fetch may happen. -/
def wFetchNone : World := ⟨fun _ => none, fun _ _ => none, "20261011"⟩

/-- A small plain (non-index) sitemap document. -/
def leafDoc : String :=
  "<urlset xmlns='http://www.sitemaps.org/schemas/sitemap/0.9'><url><loc>http://e/a</loc></url></urlset>"

/-- A sitemap index listing one child sitemap. -/
def idxDoc : String :=
  "<sitemapindex xmlns='x'><sitemap><loc>http://e/c1.xml</loc></sitemap></sitemapindex>"

/-- World for the index-expansion scenarios: fetching the index URL yields
`idxDoc`, fetching the child yields `leafDoc`. -/
def wIdx : World :=
  ⟨fun u => if u = "http://i/idx.xml" then some idxDoc
    else if u = "http://e/c1.xml" then some leafDoc else none,
   fun _ _ => none, "20261011"⟩

/-- Sitemap index whose single child `"httpb:/"` is a different URL string
from the index URL `"httpb:"` but normalizes (trailing slash stripped) to the
same hash key. -/
def aliasIdxDoc : String :=
  "<sitemapindex><sitemap><loc>httpb:/</loc></sitemap></sitemapindex>"

/-- World for the hash-aliasing scenario: the index URL `"httpb:"` serves
`aliasIdxDoc`; its child `"httpb:/"` serves plain non-index content. -/
def wAlias : World :=
  ⟨fun u => if u = "httpb:" then some aliasIdxDoc
    else if u = "httpb:/" then some leafDoc else none,
   fun _ _ => none, "20261011"⟩

/-- Store in which `"http://a/s.xml"` is monitored and was already checked
today, with two non-empty stored generations. -/
def stSameDay : St :=
  ⟨fun k =>
    if k = feedsKey then some (.arr ["http://a/s.xml"])
    else if k = "last_update_" ++ generateUrlHash "http://a/s.xml" then some (.str "20261011")
    else if k = "sitemap_current_" ++ generateUrlHash "http://a/s.xml" then
      some (.str "<loc>http://a/1</loc><loc>http://a/2</loc>")
    else if k = "sitemap_latest_" ++ generateUrlHash "http://a/s.xml" then
      some (.str "<loc>http://a/1</loc>")
    else none, []⟩

/-- Store holding an empty-string `current` (a falsy value in JavaScript) and
a stale non-empty `latest` for `"http://e/s.xml"`. -/
def stEmptyCur : St :=
  ⟨fun k =>
    if k = "sitemap_current_" ++ generateUrlHash "http://e/s.xml" then some (.str "")
    else if k = "sitemap_latest_" ++ generateUrlHash "http://e/s.xml" then some (.str "OLD")
    else none, []⟩

/-- World serving plain non-index content for `"http://e/s.xml"`. -/
def wLeaf : World :=
  ⟨fun u => if u = "http://e/s.xml" then some leafDoc else none, fun _ _ => none, "20261011"⟩

/-! ## Basic lemmas about the store and the string keys -/

theorem putKV_kv_self (st : St) (k : String) (v : Val) : (putKV st k v).kv k = some v := by
  simp [putKV]

theorem putKV_kv_ne (st : St) (k : String) (v : Val) {k' : String} (h : k' ≠ k) :
    (putKV st k v).kv k' = st.kv k' := by
  simp [putKV, h]

theorem putKV_fetched (st : St) (k : String) (v : Val) :
    (putKV st k v).fetched = st.fetched := rfl

/-- Two string concatenations differ when their left parts differ at a common
position. -/
theorem append_ne_append (p q s t : String) (i : Nat) (h1 : i < p.data.length)
    (h2 : i < q.data.length) (h3 : p.data[i]? ≠ q.data[i]?) : p ++ s ≠ q ++ t := by
  intro h
  apply h3
  have hd := congrArg String.data h
  rw [String.data_append, String.data_append] at hd
  calc p.data[i]? = (p.data ++ s.data)[i]? := (List.getElem?_append_left h1).symm
    _ = (q.data ++ t.data)[i]? := by rw [hd]
    _ = q.data[i]? := List.getElem?_append_left h2

/-- A concatenation differs from a plain string when the left part differs from
it at a common position. -/
theorem append_ne_single (p s q : String) (i : Nat) (h1 : i < p.data.length)
    (h3 : p.data[i]? ≠ q.data[i]?) : p ++ s ≠ q := by
  intro h
  apply h3
  have hd := congrArg String.data h
  rw [String.data_append] at hd
  calc p.data[i]? = (p.data ++ s.data)[i]? := (List.getElem?_append_left h1).symm
    _ = q.data[i]? := by rw [hd]

theorem append_left_cancel_str {p s t : String} (h : p ++ s = p ++ t) : s = t := by
  apply String.ext
  have hd := congrArg String.data h
  rw [String.data_append, String.data_append] at hd
  exact List.append_cancel_left hd

/-- Injectivity of the dated-archive key in the hash for a fixed date. -/
theorem append_mid_cancel {p h1 h2 d : String}
    (e : p ++ h1 ++ "_" ++ d = p ++ h2 ++ "_" ++ d) : h1 = h2 := by
  rw [String.append_assoc p h1, String.append_assoc p (h1 ++ "_"),
      String.append_assoc p h2, String.append_assoc p (h2 ++ "_")] at e
  have e1 := congrArg String.data (append_left_cancel_str e)
  rw [String.data_append, String.data_append, String.data_append, String.data_append,
      List.append_assoc h1.data, List.append_assoc h2.data] at e1
  have hlen : h1.data.length = h2.data.length := by
    have := congrArg List.length e1
    simp only [List.length_append] at this
    omega
  exact String.ext (List.append_inj_left e1 hlen)

theorem cur_ne_lat (a b : String) : "sitemap_current_" ++ a ≠ "sitemap_latest_" ++ b :=
  append_ne_append _ _ _ _ 8 (by decide) (by decide) (by decide)

theorem cur_ne_dated (a b c : String) :
    "sitemap_current_" ++ a ≠ "sitemap_dated_" ++ b ++ "_" ++ c := by
  rw [String.append_assoc, String.append_assoc]
  exact append_ne_append _ _ _ _ 8 (by decide) (by decide) (by decide)

theorem cur_ne_last (a b : String) : "sitemap_current_" ++ a ≠ "last_update_" ++ b :=
  append_ne_append _ _ _ _ 0 (by decide) (by decide) (by decide)

theorem lat_ne_dated (a b c : String) :
    "sitemap_latest_" ++ a ≠ "sitemap_dated_" ++ b ++ "_" ++ c := by
  rw [String.append_assoc, String.append_assoc]
  exact append_ne_append _ _ _ _ 8 (by decide) (by decide) (by decide)

theorem lat_ne_last (a b : String) : "sitemap_latest_" ++ a ≠ "last_update_" ++ b :=
  append_ne_append _ _ _ _ 0 (by decide) (by decide) (by decide)

theorem last_ne_dated (a b c : String) :
    "last_update_" ++ a ≠ "sitemap_dated_" ++ b ++ "_" ++ c := by
  rw [String.append_assoc, String.append_assoc]
  exact append_ne_append _ _ _ _ 0 (by decide) (by decide) (by decide)

theorem cur_ne_feeds (a : String) : "sitemap_current_" ++ a ≠ feedsKey :=
  append_ne_single _ _ _ 0 (by decide) (by decide)

theorem lat_ne_feeds (a : String) : "sitemap_latest_" ++ a ≠ feedsKey :=
  append_ne_single _ _ _ 0 (by decide) (by decide)

theorem dated_ne_feeds (a b : String) : "sitemap_dated_" ++ a ++ "_" ++ b ≠ feedsKey := by
  rw [String.append_assoc, String.append_assoc]
  exact append_ne_single _ _ _ 0 (by decide) (by decide)

theorem last_ne_feeds (a : String) : "last_update_" ++ a ≠ feedsKey :=
  append_ne_single _ _ _ 0 (by decide) (by decide)

theorem getFeeds_putKV_self (st : St) (l : List String) :
    getFeeds (putKV st feedsKey (.arr l)) = l := by
  simp [getFeeds, putKV]

theorem getFeeds_putKV_ne {k : String} (st : St) (v : Val) (h : k ≠ feedsKey) :
    getFeeds (putKV st k v) = getFeeds st := by
  have : feedsKey ≠ k := Ne.symm h
  simp [getFeeds, putKV, this]

theorem getFeeds_fetched (st : St) (l : List String) :
    getFeeds { st with fetched := l } = getFeeds st := rfl

/-! ## Character-level lemmas about `lowerChar` and `normChars` -/

theorem toNat_ofNat_valid {n : Nat} (h : n.isValidChar) : (Char.ofNat n).toNat = n := by
  unfold Char.ofNat
  rw [dif_pos h]
  rfl

theorem lowerChar_of_upper {c : Char} (h : 'A' ≤ c ∧ c ≤ 'Z') :
    (lowerChar c).toNat = c.toNat + 32 := by
  have h1 : 65 ≤ c.toNat := h.1
  have h2 : c.toNat ≤ 90 := h.2
  unfold lowerChar
  rw [if_pos h]
  exact toNat_ofNat_valid (Or.inl (by omega))

theorem lowerChar_not_upper {c : Char} (h : ¬('A' ≤ c ∧ c ≤ 'Z')) : lowerChar c = c := by
  unfold lowerChar
  rw [if_neg h]

theorem lowerChar_idem (c : Char) : lowerChar (lowerChar c) = lowerChar c := by
  by_cases h : 'A' ≤ c ∧ c ≤ 'Z'
  · have h1 : 65 ≤ c.toNat := h.1
    have h2 : c.toNat ≤ 90 := h.2
    have hv := lowerChar_of_upper h
    apply lowerChar_not_upper
    intro h'
    have h3 : (lowerChar c).toNat ≤ 90 := h'.2
    omega
  · rw [lowerChar_not_upper h, lowerChar_not_upper h]

theorem lowerChar_eq_low {c d : Char} (hd : d.toNat < 65) : lowerChar c = d ↔ c = d := by
  constructor
  · intro h
    by_cases hc : 'A' ≤ c ∧ c ≤ 'Z'
    · exfalso
      have h1 : 65 ≤ c.toNat := hc.1
      have h2 := lowerChar_of_upper hc
      rw [h] at h2
      omega
    · rwa [lowerChar_not_upper hc] at h
  · intro h
    subst h
    apply lowerChar_not_upper
    intro h'
    have h1 : 65 ≤ c.toNat := h'.1
    omega

theorem map_lowerChar_idem (l : List Char) :
    (l.map lowerChar).map lowerChar = l.map lowerChar := by
  rw [List.map_map]
  apply List.map_congr_left
  intro a _
  simp only [Function.comp_apply]
  exact lowerChar_idem a

theorem normChars_map_lower (l : List Char) : normChars (l.map lowerChar) = normChars l := by
  simp only [normChars, map_lowerChar_idem]

theorem lowerChar_slash {c : Char} : lowerChar c = '/' ↔ c = '/' :=
  lowerChar_eq_low (by decide)

theorem getLast?_map_lower_ne_slash {l : List Char} (h : l.getLast? ≠ some '/') :
    (l.map lowerChar).getLast? ≠ some '/' := by
  rw [List.getLast?_map]
  cases hl : l.getLast? with
  | none => simp
  | some c =>
    simp only [Option.map_some', ne_eq, Option.some.injEq]
    intro he
    exact h (by rw [hl, lowerChar_slash.mp he])

theorem normChars_append_slash {l : List Char} (h : l.getLast? ≠ some '/') :
    normChars (l ++ ['/']) = normChars l := by
  have hmap : (l ++ ['/']).map lowerChar = l.map lowerChar ++ ['/'] := by
    rw [List.map_append]
    rfl
  have h2 := getLast?_map_lower_ne_slash h
  simp only [normChars, hmap, List.getLast?_concat, List.dropLast_concat, if_neg h2]
  simp

theorem normChars_dropLast {l : List Char} (h1 : l.getLast? = some '/')
    (h2 : l.dropLast.getLast? ≠ some '/') : normChars l.dropLast = normChars l := by
  have hne : l ≠ [] := by
    intro he
    rw [he] at h1
    simp at h1
  have hg : l.getLast hne = '/' := by
    have h3 := List.getLast?_eq_getLast l hne
    rw [h3] at h1
    exact Option.some_inj.mp h1
  have hsplit : l.dropLast ++ ['/'] = l := by
    have h3 := List.dropLast_append_getLast hne
    rw [hg] at h3
    exact h3
  calc normChars l.dropLast = normChars (l.dropLast ++ ['/']) :=
        (normChars_append_slash h2).symm
    _ = normChars l := by rw [hsplit]

/-! ## C2 — the change detector -/

/-- C2: for all content pairs (A, B), `compareSitemaps A B` (the spec's
`diff`) returns exactly the URLs of A's extracted location list that are
absent from B's, in A's original order (it is a sublist of A's list), with
exact string equality as the membership test and no duplicate collapsed
(multiplicities of surviving URLs are preserved); the function is total, so
it never raises, and an extraction failure — modelled by an empty extraction
— yields the empty sequence. -/
theorem compareSitemaps_spec (A B : String) :
    (compareSitemaps A B).Sublist (extractURLs A) ∧
    ∀ u : String, (compareSitemaps A B).count u =
      if u ∈ extractURLs B then 0 else (extractURLs A).count u := by
  constructor
  · exact List.filter_sublist _
  · intro u
    by_cases h : u ∈ extractURLs B
    · rw [if_pos h, List.count_eq_zero]
      intro hmem
      rw [compareSitemaps, List.mem_filter] at hmem
      have h2 := hmem.2
      simp at h2
      exact h2 h
    · rw [if_neg h]
      apply List.count_filter
      simp [h]

/-! ## C7 — the URL hash and its normalization -/

/-- C7 counterexample: the claim asserts `generateUrlHash u` is unchanged by
appending a trailing slash for every URL string `u`; for `u = "http://x/"`
(already slash-terminated) the appended variant hashes `"http://x/"` while `u`
itself hashes `"http://x"`, and the two keys differ.  The removal direction
holds at this input, as the second conjunct records. -/
theorem generateUrlHash_append_slash_cex :
    generateUrlHash ("http://x/" ++ "/") ≠ generateUrlHash "http://x/" ∧
    generateUrlHash "http://x/" = generateUrlHash "http://x" := by
  constructor
  · decide
  · decide

/-- C7 (amended): `generateUrlHash` is a deterministic function of the
normalized URL: it is invariant under lower-casing for every input, invariant
under appending one trailing slash whenever the input does not already end in
`/`, and invariant under removing the final slash whenever the input ends in
exactly one `/` — because the input is normalized (lower-case, strip a single
trailing slash) before hashing.  An input already ending in `/` gains a
different key when another slash is appended, as the counterexample shows. -/
theorem generateUrlHash_normalized (u : String) :
    generateUrlHash (String.mk (u.data.map lowerChar)) = generateUrlHash u ∧
    (u.data.getLast? ≠ some '/' → generateUrlHash (u ++ "/") = generateUrlHash u) ∧
    (u.data.getLast? = some '/' → u.data.dropLast.getLast? ≠ some '/' →
      generateUrlHash (String.mk u.data.dropLast) = generateUrlHash u) := by
  refine ⟨?_, ?_, ?_⟩
  · show toBase36 (toUint32 (djb2 (normChars _))) = _
    rw [show (String.mk (u.data.map lowerChar)).data = u.data.map lowerChar from rfl,
      normChars_map_lower]
    rfl
  · intro h
    show toBase36 (toUint32 (djb2 (normChars _))) = _
    rw [show (u ++ "/").data = u.data ++ ['/'] from String.data_append u "/",
      normChars_append_slash h]
    rfl
  · intro h1 h2
    show toBase36 (toUint32 (djb2 (normChars _))) = _
    rw [show (String.mk u.data.dropLast).data = u.data.dropLast from rfl,
      normChars_dropLast h1 h2]
    rfl

theorem generateUrlHash_normalized_witness :
    (generateUrlHash (String.mk ("HTTP://X".data.map lowerChar)) = generateUrlHash "HTTP://X" ∧
      generateUrlHash ("HTTP://X" ++ "/") = generateUrlHash "HTTP://X") ∧
    generateUrlHash (String.mk "http://y/".data.dropLast) = generateUrlHash "http://y/" := by
  refine ⟨⟨(generateUrlHash_normalized "HTTP://X").1,
    (generateUrlHash_normalized "HTTP://X").2.1 (by decide)⟩,
    (generateUrlHash_normalized "http://y/").2.2 (by decide) (by decide)⟩

/-! ## C9 — removeFeed -/

/-- C9: for every URL absent from the monitored set, `removeFeed` returns
`success := false` with the not-found message and leaves the state (monitored
set and all other keys) unchanged; for every URL present it returns
`success := true`, persists the set with the first occurrence of the URL
removed (`splice(indexOf, 1)`), touches no other key, and — the monitored set
being duplicate-free in every state the manager itself writes — the URL is no
longer monitored. -/
theorem removeFeed_spec (st : St) (url : String) :
    (url ∉ getFeeds st →
      removeFeed st url = ({ success := false, errorMsg := "该RSS订阅不存在" }, st)) ∧
    (url ∈ getFeeds st →
      (removeFeed st url).1 = { success := true, errorMsg := "" } ∧
      getFeeds (removeFeed st url).2 = (getFeeds st).erase url ∧
      ((getFeeds st).Nodup → url ∉ getFeeds (removeFeed st url).2) ∧
      (∀ k, k ≠ feedsKey → (removeFeed st url).2.kv k = st.kv k) ∧
      (removeFeed st url).2.fetched = st.fetched) := by
  constructor
  · intro h
    rw [removeFeed, if_neg]
    simpa using h
  · intro h
    have hc : (getFeeds st).contains url = true := by
      simpa using h
    rw [removeFeed, if_pos hc]
    refine ⟨rfl, getFeeds_putKV_self _ _, ?_, ?_, rfl⟩
    · intro hnd
      rw [getFeeds_putKV_self]
      exact List.Nodup.not_mem_erase hnd
    · intro k hk
      exact putKV_kv_ne _ _ _ hk

theorem removeFeed_spec_witness :
    (let st : St := ⟨fun k => if k = feedsKey then some (.arr ["http://a/s.xml"]) else none, []⟩
     "http://b" ∉ getFeeds st ∧
     removeFeed st "http://b" = ({ success := false, errorMsg := "该RSS订阅不存在" }, st)) ∧
    (let st : St := ⟨fun k => if k = feedsKey then some (.arr ["http://a/s.xml"]) else none, []⟩
     "http://a/s.xml" ∈ getFeeds st ∧
     getFeeds (removeFeed st "http://a/s.xml").2 = (getFeeds st).erase "http://a/s.xml") := by
  refine ⟨⟨by decide, (removeFeed_spec _ "http://b").1 (by decide)⟩,
    ⟨by decide, ((removeFeed_spec _ "http://a/s.xml").2 (by decide)).2.1⟩⟩

/-! ## C8 — totality of the extractors on tag-free input, permissiveness -/

theorem matchCI_lt_head {ps l : List Char} {c : Char} (hc : c ≠ '<') :
    matchCI ('<' :: ps) (c :: l) = none := by
  simp only [matchCI]
  rw [if_neg]
  intro he
  exact hc ((lowerChar_eq_low (by decide)).mp (by
    rw [show lowerChar '<' = '<' from rfl] at he
    exact he.symm))

theorem scanPairs_no_lt (ps clos : List Char) (dot : Bool) :
    ∀ fuel l, (∀ c ∈ l, c ≠ '<') → scanPairs ('<' :: ps) clos dot fuel l = [] := by
  intro fuel
  induction fuel with
  | zero => intro l _; rfl
  | succ n ih =>
    intro l h
    cases l with
    | nil => rfl
    | cons c cs =>
      have hm : matchCI ('<' :: ps) (c :: cs) = none := matchCI_lt_head (h c (by simp))
      simp only [scanPairs, hm]
      exact ih cs (fun x hx => h x (by simp [hx]))

theorem stripXmlDecl_no_lt :
    ∀ fuel l, (∀ c ∈ l, c ≠ '<') → stripXmlDecl fuel l = l := by
  intro fuel
  induction fuel with
  | zero => intro l _; rfl
  | succ n ih =>
    intro l h
    cases l with
    | nil => rfl
    | cons c cs =>
      have hm : matchCI "<?xml".data (c :: cs) = none := matchCI_lt_head (h c (by simp))
      simp only [stripXmlDecl, hm]
      exact congrArg (c :: ·) (ih cs (fun x hx => h x (by simp [hx])))

theorem rootScan_no_lt :
    ∀ fuel l, (∀ c ∈ l, c ≠ '<') → rootScan fuel l = none := by
  intro fuel
  induction fuel with
  | zero => intro l _; rfl
  | succ n ih =>
    intro l h
    cases l with
    | nil => rfl
    | cons c cs =>
      have hc : c ≠ '<' := h c (by simp)
      simp only [rootScan, if_neg hc]
      exact ih cs (fun x hx => h x (by simp [hx]))

theorem rootScanOf_no_lt (s : String) (h : ∀ c ∈ s.data, c ≠ '<') :
    rootScanOf s = none := by
  have hstrip := stripXmlDecl_no_lt s.data.length s.data h
  simp only [rootScanOf, hstrip]
  exact rootScan_no_lt _ _ h

/-- C8 counterexample: the permissive regex scanner contradicts the claim's
universal statement about malformed input.  The document below is not
well-formed XML (its root element is never closed), yet `extractURLs` returns
a URL rather than the empty sequence, `classifyRoot` returns `"urlset"` rather
than `"unknown"`, and `isValidSitemap` accepts it. -/
theorem extractors_malformed_cex :
    extractURLs "<urlset xmlns='sitemaps.org'><url><loc>http://a</loc></url>"
        = ["http://a"] ∧
    classifyRoot "<urlset xmlns='sitemaps.org'><url><loc>http://a</loc></url>" = "urlset" ∧
    isValidSitemap "<urlset xmlns='sitemaps.org'><url><loc>http://a</loc></url>" = true := by
  refine ⟨by decide, by decide, by decide⟩

/-- C8 (amended): no extractor can raise — all are total Lean functions by
construction — and on input in which the regex scanner finds no tag at all
(no `<` character), `extractURLs` returns the empty sequence, `classifyRoot`
returns `"unknown"`, and `isValidSitemap` returns `false`.  The scanner being
a permissive regex matcher, malformed documents that still contain tag-like
fragments can yield non-empty extractions and even validate, as the
counterexample records. -/
theorem extractors_tagless (s : String) (h : ∀ c ∈ s.data, c ≠ '<') :
    extractURLs s = [] ∧ classifyRoot s = "unknown" ∧ isValidSitemap s = false := by
  have hroot := rootScanOf_no_lt s h
  refine ⟨?_, ?_, ?_⟩
  · have hscan : scanPairs ['<', 'l', 'o', 'c'] ['<', '/', 'l', 'o', 'c', '>'] false
        s.data.length s.data = [] :=
      scanPairs_no_lt "loc".data "</loc>".data false s.data.length s.data h
    simp only [extractURLs]
    rw [hscan]
    rfl
  · simp only [classifyRoot, rootTagName, hroot, Option.map_none']
  · simp only [isValidSitemap, rootTagName, rootAttrsRaw, hroot, Option.map_none']

theorem extractors_tagless_witness :
    (∀ c ∈ ("plain text, no tags").data, c ≠ '<') ∧
    (extractURLs "plain text, no tags" = [] ∧
     classifyRoot "plain text, no tags" = "unknown" ∧
     isValidSitemap "plain text, no tags" = false) :=
  ⟨by decide, extractors_tagless "plain text, no tags" (by decide)⟩

/-! ## C3 — the same-day skip guard -/

theorem downloadSitemap_skip (w : World) (fuel : Nat) (url : String) (st : St)
    (hday : jsGet st ("last_update_" ++ generateUrlHash url) = some w.today) :
    (downloadSitemap w (fuel + 1) url false st).2 = st ∧
    (downloadSitemap w (fuel + 1) url false st).1.success = true ∧
    ∀ cv lv, st.kv ("sitemap_current_" ++ generateUrlHash url) = some cv →
      st.kv ("sitemap_latest_" ++ generateUrlHash url) = some lv →
      valToString cv ≠ "" → valToString lv ≠ "" →
      (downloadSitemap w (fuel + 1) url false st).1.newUrls =
        compareSitemaps (valToString cv) (valToString lv) := by
  simp only [downloadSitemap]
  rw [if_pos (show True ∧ jsGet st ("last_update_" ++ generateUrlHash url) = some w.today
    from ⟨trivial, hday⟩)]
  refine ⟨?_, ?_, ?_⟩
  · split
    · split
      · rfl
      · rfl
    · rfl
  · split
    · split
      · rfl
      · rfl
    · rfl
  · intro cv lv hcv hlv hcvt hlvt
    rw [hcv, hlv]
    have ht : valTruthy (some cv) = true ∧ valTruthy (some lv) = true := by
      constructor
      · simp [valTruthy, hcvt]
      · simp [valTruthy, hlvt]
    rw [if_pos ht]
    simp only [Option.getD_some]
    split
    · rfl
    · rename_i hlen
      have hnil : compareSitemaps (valToString cv) (valToString lv) = [] := by
        have := Nat.eq_zero_of_not_pos hlen
        exact List.eq_nil_of_length_eq_zero this
      rw [hnil]

/-- C3: for a URL already checked today (`last_update` key equals today) and
`forceUpdate = false`, a second `addFeed` call on the same calendar day — the
URL being monitored after the first call — performs no fetch and writes no
store key: the entire state (key-value store and fetch log) is returned
unchanged.  The call reports success, and when both the `current` and the
`latest` (the spec's `previous`) generations are present and non-empty, its
`newUrls` is the diff of current against previous, which may be non-empty. -/
theorem addFeed_same_day_frame (w : World) (fuel : Nat) (url : String) (st : St)
    (hmem : url ∈ getFeeds st)
    (hday : jsGet st ("last_update_" ++ generateUrlHash url) = some w.today) :
    (addFeed w (fuel + 1) url false st).2 = st ∧
    (addFeed w (fuel + 1) url false st).1.success = true ∧
    ∀ cv lv, st.kv ("sitemap_current_" ++ generateUrlHash url) = some cv →
      st.kv ("sitemap_latest_" ++ generateUrlHash url) = some lv →
      valToString cv ≠ "" → valToString lv ≠ "" →
      (addFeed w (fuel + 1) url false st).1.newUrls =
        compareSitemaps (valToString cv) (valToString lv) := by
  have hc : (getFeeds st).contains url = true := by simpa using hmem
  have hs := downloadSitemap_skip w fuel url st hday
  simp only [addFeed, hc, if_true]
  rw [if_pos hs.2.1]
  exact ⟨hs.1, hs.2.1, fun cv lv h1 h2 h3 h4 => hs.2.2 cv lv h1 h2 h3 h4⟩

theorem addFeed_same_day_frame_witness :
    "http://a/s.xml" ∈ getFeeds stSameDay ∧
    jsGet stSameDay ("last_update_" ++ generateUrlHash "http://a/s.xml") =
      some wFetchNone.today ∧
    (addFeed wFetchNone 1 "http://a/s.xml" false stSameDay).2 = stSameDay ∧
    (addFeed wFetchNone 1 "http://a/s.xml" false stSameDay).1.newUrls = ["http://a/2"] := by
  refine ⟨by decide, by decide,
    (addFeed_same_day_frame wFetchNone 0 "http://a/s.xml" stSameDay (by decide) (by decide)).1,
    ?_⟩
  have h := (addFeed_same_day_frame wFetchNone 0 "http://a/s.xml" stSameDay
    (by decide) (by decide)).2.2
    (.str "<loc>http://a/1</loc><loc>http://a/2</loc>") (.str "<loc>http://a/1</loc>")
    (by decide) (by decide) (by decide) (by decide)
  rw [h]
  decide

/-! ## C1 — the non-skip store update (snapshot rotation) -/

/-- C1 counterexample: when the stored `current` is the empty string — a falsy
value, reachable because an empty 200-response body is stored verbatim — a
successful non-skip non-index download does not rotate it into the `latest`
slot: afterwards `latest` holds neither the value `current` held immediately
before the call (the empty string) nor is it absent, contradicting the claim's
invariant `previous ← current`. -/
theorem downloadSitemap_rotation_cex :
    (downloadSitemap wLeaf 1 "http://e/s.xml" false stEmptyCur).1.success = true ∧
    (downloadSitemap wLeaf 1 "http://e/s.xml" false stEmptyCur).1.datedFile ≠ none ∧
    stEmptyCur.kv ("sitemap_current_" ++ generateUrlHash "http://e/s.xml") =
      some (.str "") ∧
    ¬((downloadSitemap wLeaf 1 "http://e/s.xml" false stEmptyCur).2.kv
        ("sitemap_latest_" ++ generateUrlHash "http://e/s.xml") = some (.str "") ∨
      (downloadSitemap wLeaf 1 "http://e/s.xml" false stEmptyCur).2.kv
        ("sitemap_latest_" ++ generateUrlHash "http://e/s.xml") = none) := by
  refine ⟨by decide, by decide, by decide, by decide⟩

/-- C1 (amended): on every successful non-skip download of non-index content,
the store afterwards holds the new content under `current` and under today's
archive key, and `last_update` holds today; when the prior `current` was
present and non-empty (truthy), it is rotated into `latest` (the spec's
`previous`) and the returned diff compares the new content against it; when
the prior `current` was absent or empty, `latest` is left unchanged — in
particular absent on a first-ever download — and the diff is empty.
Consequently `getSitemapContent url "current"` returns the just-downloaded
content and, after a truthy rotation, `getSitemapContent url "latest"` returns
the prior `current`. -/
theorem downloadSitemap_store_update (w : World) (fuel : Nat) (url : String)
    (forceUpdate : Bool) (content : String) (st : St)
    (hskip : forceUpdate = true ∨
      jsGet st ("last_update_" ++ generateUrlHash url) ≠ some w.today)
    (hfetch : w.fetch url = some content)
    (hidx : rootTagName content ≠ some "sitemapindex") :
    (downloadSitemap w (fuel + 1) url forceUpdate st).1.success = true ∧
    (downloadSitemap w (fuel + 1) url forceUpdate st).1.datedFile =
      some ("sitemap_dated_" ++ generateUrlHash url ++ "_" ++ w.today) ∧
    (downloadSitemap w (fuel + 1) url forceUpdate st).2.kv
      ("sitemap_current_" ++ generateUrlHash url) = some (.str content) ∧
    (downloadSitemap w (fuel + 1) url forceUpdate st).2.kv
      ("sitemap_dated_" ++ generateUrlHash url ++ "_" ++ w.today) = some (.str content) ∧
    (downloadSitemap w (fuel + 1) url forceUpdate st).2.kv
      ("last_update_" ++ generateUrlHash url) = some (.str w.today) ∧
    (valTruthy (st.kv ("sitemap_current_" ++ generateUrlHash url)) = true →
      (downloadSitemap w (fuel + 1) url forceUpdate st).2.kv
        ("sitemap_latest_" ++ generateUrlHash url) =
        st.kv ("sitemap_current_" ++ generateUrlHash url) ∧
      (downloadSitemap w (fuel + 1) url forceUpdate st).1.newUrls =
        compareSitemaps content
          (valToString ((st.kv ("sitemap_current_" ++ generateUrlHash url)).getD (.str "")))) ∧
    (valTruthy (st.kv ("sitemap_current_" ++ generateUrlHash url)) = false →
      (downloadSitemap w (fuel + 1) url forceUpdate st).2.kv
        ("sitemap_latest_" ++ generateUrlHash url) =
        st.kv ("sitemap_latest_" ++ generateUrlHash url) ∧
      (downloadSitemap w (fuel + 1) url forceUpdate st).1.newUrls = []) ∧
    getSitemapContent w (downloadSitemap w (fuel + 1) url forceUpdate st).2 url
      "current" none = some content ∧
    (valTruthy (st.kv ("sitemap_current_" ++ generateUrlHash url)) = true →
      getSitemapContent w (downloadSitemap w (fuel + 1) url forceUpdate st).2 url
        "latest" none = jsGet st ("sitemap_current_" ++ generateUrlHash url)) := by
  have hcond : ¬(forceUpdate = false ∧
      jsGet st ("last_update_" ++ generateUrlHash url) = some w.today) := by
    rintro ⟨h1, h2⟩
    rcases hskip with h | h
    · rw [h] at h1
      exact Bool.noConfusion h1
    · exact h h2
  simp only [downloadSitemap]
  rw [if_neg hcond]
  simp only [hfetch]
  rw [if_neg hidx]
  by_cases hcv : valTruthy (st.kv ("sitemap_current_" ++ generateUrlHash url)) = true
  · obtain ⟨cv, hcveq⟩ :
        ∃ v, st.kv ("sitemap_current_" ++ generateUrlHash url) = some v := by
      cases h0 : st.kv ("sitemap_current_" ++ generateUrlHash url) with
      | none => rw [h0] at hcv; simp [valTruthy] at hcv
      | some v => exact ⟨v, rfl⟩
    rw [if_pos hcv, if_pos hcv]
    refine ⟨rfl, rfl, ?_, ?_, ?_, ?_, ?_, ?_, ?_⟩
    · rw [putKV_kv_ne _ _ _ (cur_ne_last _ _), putKV_kv_ne _ _ _ (cur_ne_dated _ _ _)]
      exact putKV_kv_self _ _ _
    · rw [putKV_kv_ne _ _ _ (Ne.symm (last_ne_dated _ _ _))]
      exact putKV_kv_self _ _ _
    · exact putKV_kv_self _ _ _
    · intro _
      refine ⟨?_, rfl⟩
      rw [putKV_kv_ne _ _ _ (lat_ne_last _ _), putKV_kv_ne _ _ _ (lat_ne_dated _ _ _),
        putKV_kv_ne _ _ _ (Ne.symm (cur_ne_lat _ _)), putKV_kv_self]
      rw [hcveq]
      simp
    · intro h0
      rw [hcv] at h0
      exact Bool.noConfusion h0
    · simp only [getSitemapContent, if_true, if_false]
      simp only [jsGet]
      rw [putKV_kv_ne _ _ _ (cur_ne_last _ _), putKV_kv_ne _ _ _ (cur_ne_dated _ _ _),
        putKV_kv_self]
      rfl
    · intro _
      simp only [getSitemapContent, if_true, if_false]
      simp only [jsGet]
      rw [putKV_kv_ne _ _ _ (lat_ne_last _ _), putKV_kv_ne _ _ _ (lat_ne_dated _ _ _),
        putKV_kv_ne _ _ _ (Ne.symm (cur_ne_lat _ _)), putKV_kv_self]
      rw [hcveq]
      simp
  · rw [if_neg hcv, if_neg hcv]
    have hfalse : valTruthy (st.kv ("sitemap_current_" ++ generateUrlHash url)) = false := by
      simpa using hcv
    refine ⟨rfl, rfl, ?_, ?_, ?_, ?_, ?_, ?_, ?_⟩
    · rw [putKV_kv_ne _ _ _ (cur_ne_last _ _), putKV_kv_ne _ _ _ (cur_ne_dated _ _ _)]
      exact putKV_kv_self _ _ _
    · rw [putKV_kv_ne _ _ _ (Ne.symm (last_ne_dated _ _ _))]
      exact putKV_kv_self _ _ _
    · exact putKV_kv_self _ _ _
    · intro h0
      exact absurd h0 hcv
    · intro _
      refine ⟨?_, rfl⟩
      rw [putKV_kv_ne _ _ _ (lat_ne_last _ _), putKV_kv_ne _ _ _ (lat_ne_dated _ _ _),
        putKV_kv_ne _ _ _ (Ne.symm (cur_ne_lat _ _))]
    · simp only [getSitemapContent, if_true, if_false]
      simp only [jsGet]
      rw [putKV_kv_ne _ _ _ (cur_ne_last _ _), putKV_kv_ne _ _ _ (cur_ne_dated _ _ _),
        putKV_kv_self]
      rfl
    · intro h0
      exact absurd h0 hcv

theorem downloadSitemap_store_update_witness :
    (wLeaf.fetch "http://e/s.xml" = some leafDoc ∧
     rootTagName leafDoc ≠ some "sitemapindex" ∧
     jsGet stEmpty ("last_update_" ++ generateUrlHash "http://e/s.xml") ≠
       some wLeaf.today) ∧
    ((downloadSitemap wLeaf 1 "http://e/s.xml" false stEmpty).2.kv
       ("sitemap_current_" ++ generateUrlHash "http://e/s.xml") = some (.str leafDoc) ∧
     getSitemapContent wLeaf (downloadSitemap wLeaf 1 "http://e/s.xml" false stEmpty).2
       "http://e/s.xml" "current" none = some leafDoc) := by
  have h := downloadSitemap_store_update wLeaf 0 "http://e/s.xml" false leafDoc stEmpty
    (Or.inr (by decide)) (by decide) (by decide)
  exact ⟨⟨by decide, by decide, by decide⟩, ⟨h.2.2.1, h.2.2.2.2.2.2.2.1⟩⟩

/-! ## C4 — children added during index expansion are lost by addFeed -/

/-- C4 (code bug): `addFeed` on a new URL whose content is a sitemap index.
The expansion downloads the child (its content is saved under the child's
`current` key) and reports one feed added — `processSitemapIndex` even
persists the child into `rss_feeds` — but `addFeed` then overwrites
`rss_feeds` with the stale array it read before the download plus the index
URL, so after `addFeed` returns the persisted monitored set contains only the
index URL and the child is gone, contradicting the claim that it still
contains every child the expansion added. -/
theorem addFeed_index_children_clobbered :
    (addFeed wIdx 2 "http://i/idx.xml" false stEmpty).1.success = true ∧
    (addFeed wIdx 2 "http://i/idx.xml" false stEmpty).1.newFeedsAdded = some 1 ∧
    jsGet (addFeed wIdx 2 "http://i/idx.xml" false stEmpty).2
      ("sitemap_current_" ++ generateUrlHash "http://e/c1.xml") = some leafDoc ∧
    getFeeds (addFeed wIdx 2 "http://i/idx.xml" false stEmpty).2 = ["http://i/idx.xml"] ∧
    "http://e/c1.xml" ∉ getFeeds (addFeed wIdx 2 "http://i/idx.xml" false stEmpty).2 := by
  refine ⟨by decide, by decide, by decide, by decide, by decide⟩

/-! ## C6 — the isIndex flag is never set -/

/-- C6 (code bug): for a URL whose downloaded content is a sitemap index,
`addFeed` returns the `processSitemapIndex` object, which carries the
index-specific `newFeedsAdded` and `subSitemaps` fields but no `isIndex`
property at all (`isIndex = none`), even though the Telegram handler
dispatches on `result.isIndex`; the index outcome is therefore never
distinguished by the flag the claim describes. -/
theorem addFeed_isIndex_missing :
    (addFeed wIdx 2 "http://i/idx.xml" false stEmpty).1.success = true ∧
    (addFeed wIdx 2 "http://i/idx.xml" false stEmpty).1.subSitemaps = some 1 ∧
    (addFeed wIdx 2 "http://i/idx.xml" false stEmpty).1.newFeedsAdded = some 1 ∧
    (addFeed wIdx 2 "http://i/idx.xml" false stEmpty).1.isIndex = none := by
  refine ⟨by decide, by decide, by decide, by decide⟩

/-! ## C10 — index downloads, delegation and the hash-aliased keys -/

/-- C10 counterexample: the index URL `"httpb:"` and its child `"httpb:/"`
are different strings whose normalized forms share one hash key.  Downloading
the index delegates to index expansion, yet afterwards the `last_update` key
of the index URL itself holds today — the child's save wrote it — so the
claim that no `current`/`previous`/`archive`/`lastCheckedDate` key of the
index URL is ever written fails, and a second same-day call is skipped by the
day-guard instead of re-expanding the index. -/
theorem downloadSitemap_index_alias_cex :
    rootTagName aliasIdxDoc = some "sitemapindex" ∧
    wAlias.fetch "httpb:" = some aliasIdxDoc ∧
    stEmpty.kv ("last_update_" ++ generateUrlHash "httpb:") = none ∧
    (downloadSitemap wAlias 2 "httpb:" false stEmpty).2.kv
      ("last_update_" ++ generateUrlHash "httpb:") = some (.str "20261011") ∧
    (downloadSitemap wAlias 2 "httpb:" false
        (downloadSitemap wAlias 2 "httpb:" false stEmpty).2).1.errorMsg =
      "今日已更新过此sitemap" := by
  refine ⟨by decide, by decide, by decide, by decide, by decide⟩

/-! ## C5 — the child loop of processSitemapIndex against its specification -/

theorem successNewUrls_cons_none (os : List (Option (String × DLResult))) :
    successNewUrls (none :: os) = successNewUrls os := by
  simp [successNewUrls]

theorem successNewUrls_cons_some (a : String) (r : DLResult)
    (os : List (Option (String × DLResult))) :
    successNewUrls (some (a, r) :: os) =
      (if r.success then r.newUrls else []) ++ successNewUrls os := by
  by_cases h : r.success = true
  · simp [successNewUrls, List.filterMap_cons, h]
  · simp [successNewUrls, List.filterMap_cons, h]

theorem okCount_cons_none (os : List (Option (String × DLResult))) :
    okCount (none :: os) = okCount os := by
  simp [okCount, List.countP_cons]

theorem okCount_cons_some (a : String) (r : DLResult)
    (os : List (Option (String × DLResult))) :
    okCount (some (a, r) :: os) = okCount os + (if r.success then 1 else 0) := by
  simp [okCount, List.countP_cons]

theorem failCount_cons_none (os : List (Option (String × DLResult))) :
    failCount (none :: os) = failCount os + 1 := by
  simp [failCount, List.countP_cons]

theorem failCount_cons_some (a : String) (r : DLResult)
    (os : List (Option (String × DLResult))) :
    failCount (some (a, r) :: os) = failCount os + (if r.success then 0 else 1) := by
  by_cases h : r.success = true
  · simp [failCount, List.countP_cons, h]
  · simp [failCount, List.countP_cons, h]

theorem childLoop_spec (w : World) (dl : String → St → DLResult × St) (indexUrl : String) :
    ∀ (subs : List String) (acc : LoopAcc) (st : St),
      (childLoop w dl indexUrl subs acc st).2 =
        (specChildOutcomes w dl indexUrl subs st).2 ∧
      (childLoop w dl indexUrl subs acc st).1.totalNewUrls =
        acc.totalNewUrls ++ successNewUrls (specChildOutcomes w dl indexUrl subs st).1 ∧
      (childLoop w dl indexUrl subs acc st).1.successCount =
        acc.successCount + okCount (specChildOutcomes w dl indexUrl subs st).1 ∧
      (childLoop w dl indexUrl subs acc st).1.errorCount =
        acc.errorCount + failCount (specChildOutcomes w dl indexUrl subs st).1 := by
  intro subs
  induction subs with
  | nil =>
    intro acc st
    exact ⟨rfl, by simp [childLoop, specChildOutcomes, successNewUrls],
      by simp [childLoop, specChildOutcomes, okCount],
      by simp [childLoop, specChildOutcomes, failCount]⟩
  | cons sub rest ih =>
    intro acc st
    simp only [childLoop, specChildOutcomes]
    cases hres : resolveSub w indexUrl sub with
    | none =>
      dsimp only
      refine ⟨(ih _ _).1, ?_, ?_, ?_⟩
      · rw [(ih _ _).2.1, successNewUrls_cons_none]
      · rw [(ih _ _).2.2.1, okCount_cons_none]
      · rw [(ih _ _).2.2.2, failCount_cons_none]
        dsimp only
        omega
    | some a =>
      dsimp only
      by_cases hmem : acc.feeds.contains a = true
      · rw [if_pos hmem]
        by_cases hsucc : (dl a st).1.success = true
        · rw [if_pos hsucc]
          refine ⟨(ih _ _).1, ?_, ?_, ?_⟩
          · rw [(ih _ _).2.1, successNewUrls_cons_some, if_pos hsucc]
            dsimp only
            by_cases hn : (dl a st).1.newUrls = []
            · rw [if_neg (not_not_intro hn), hn]
              simp
            · rw [if_pos hn, List.append_assoc]
          · rw [(ih _ _).2.2.1, okCount_cons_some, if_pos hsucc]
            dsimp only
            omega
          · rw [(ih _ _).2.2.2, failCount_cons_some, if_pos hsucc]
            dsimp only
            omega
        · rw [if_neg hsucc]
          refine ⟨(ih _ _).1, ?_, ?_, ?_⟩
          · rw [(ih _ _).2.1, successNewUrls_cons_some, if_neg hsucc]
            dsimp only
            simp
          · rw [(ih _ _).2.2.1, okCount_cons_some, if_neg hsucc]
            dsimp only
            omega
          · rw [(ih _ _).2.2.2, failCount_cons_some, if_neg hsucc]
            dsimp only
            omega
      · rw [if_neg hmem]
        by_cases hsucc : (dl a st).1.success = true
        · rw [if_pos hsucc]
          refine ⟨(ih _ _).1, ?_, ?_, ?_⟩
          · rw [(ih _ _).2.1, successNewUrls_cons_some, if_pos hsucc]
            dsimp only
            by_cases hn : (dl a st).1.newUrls = []
            · rw [if_neg (not_not_intro hn), hn]
              simp
            · rw [if_pos hn, List.append_assoc]
          · rw [(ih _ _).2.2.1, okCount_cons_some, if_pos hsucc]
            dsimp only
            omega
          · rw [(ih _ _).2.2.2, failCount_cons_some, if_pos hsucc]
            dsimp only
            omega
        · rw [if_neg hsucc]
          refine ⟨(ih _ _).1, ?_, ?_, ?_⟩
          · rw [(ih _ _).2.1, successNewUrls_cons_some, if_neg hsucc]
            dsimp only
            simp
          · rw [(ih _ _).2.2.1, okCount_cons_some, if_neg hsucc]
            dsimp only
            omega
          · rw [(ih _ _).2.2.2, failCount_cons_some, if_neg hsucc]
            dsimp only
            omega

theorem childLoop_feeds_mono (w : World) (dl : String → St → DLResult × St) (indexUrl : String) :
    ∀ (subs : List String) (acc : LoopAcc) (st : St) (x : String),
      x ∈ acc.feeds → x ∈ (childLoop w dl indexUrl subs acc st).1.feeds := by
  intro subs
  induction subs with
  | nil => intro acc st x hx; exact hx
  | cons sub rest ih =>
    intro acc st x hx
    simp only [childLoop]
    cases hres : resolveSub w indexUrl sub with
    | none =>
      dsimp only
      exact ih _ _ x hx
    | some a =>
      dsimp only
      by_cases hmem : acc.feeds.contains a = true
      · rw [if_pos hmem]
        by_cases hsucc : (dl a st).1.success = true
        · rw [if_pos hsucc]
          exact ih _ _ x hx
        · rw [if_neg hsucc]
          exact ih _ _ x hx
      · rw [if_neg hmem]
        by_cases hsucc : (dl a st).1.success = true
        · rw [if_pos hsucc]
          exact ih _ _ x (List.mem_append_left _ hx)
        · rw [if_neg hsucc]
          exact ih _ _ x (List.mem_append_left _ hx)

theorem childLoop_feeds_mem (w : World) (dl : String → St → DLResult × St) (indexUrl : String) :
    ∀ (subs : List String) (acc : LoopAcc) (st : St) (sub a : String),
      sub ∈ subs → resolveSub w indexUrl sub = some a →
      a ∈ (childLoop w dl indexUrl subs acc st).1.feeds := by
  intro subs
  induction subs with
  | nil =>
    intro acc st sub a h _
    exact absurd h (List.not_mem_nil _)
  | cons sub0 rest ih =>
    intro acc st sub a hmem0 hres
    simp only [childLoop]
    rcases List.mem_cons.mp hmem0 with he | ht
    · subst he
      rw [hres]
      dsimp only
      by_cases hmem : acc.feeds.contains a = true
      · have hin : a ∈ acc.feeds := by simpa using hmem
        rw [if_pos hmem]
        by_cases hsucc : (dl a st).1.success = true
        · rw [if_pos hsucc]
          exact childLoop_feeds_mono w dl indexUrl rest _ _ _ hin
        · rw [if_neg hsucc]
          exact childLoop_feeds_mono w dl indexUrl rest _ _ _ hin
      · have hin : a ∈ acc.feeds ++ [a] := by simp
        rw [if_neg hmem]
        by_cases hsucc : (dl a st).1.success = true
        · rw [if_pos hsucc]
          exact childLoop_feeds_mono w dl indexUrl rest _ _ _ hin
        · rw [if_neg hsucc]
          exact childLoop_feeds_mono w dl indexUrl rest _ _ _ hin
    · cases hres0 : resolveSub w indexUrl sub0 with
      | none =>
        dsimp only
        exact ih _ _ sub a ht hres
      | some b =>
        dsimp only
        by_cases hmem : acc.feeds.contains b = true
        · rw [if_pos hmem]
          by_cases hsucc : (dl b st).1.success = true
          · rw [if_pos hsucc]
            exact ih _ _ sub a ht hres
          · rw [if_neg hsucc]
            exact ih _ _ sub a ht hres
        · rw [if_neg hmem]
          by_cases hsucc : (dl b st).1.success = true
          · rw [if_pos hsucc]
            exact ih _ _ sub a ht hres
          · rw [if_neg hsucc]
            exact ih _ _ sub a ht hres

theorem childLoop_nfa_mono (w : World) (dl : String → St → DLResult × St) (indexUrl : String) :
    ∀ (subs : List String) (acc : LoopAcc) (st : St) (n : Nat),
      n ≤ acc.newFeedsAdded → n ≤ (childLoop w dl indexUrl subs acc st).1.newFeedsAdded := by
  intro subs
  induction subs with
  | nil => intro acc st n hn; exact hn
  | cons sub rest ih =>
    intro acc st n hn
    simp only [childLoop]
    cases hres : resolveSub w indexUrl sub with
    | none =>
      dsimp only
      exact ih _ _ n hn
    | some a =>
      dsimp only
      by_cases hmem : acc.feeds.contains a = true
      · rw [if_pos hmem]
        by_cases hsucc : (dl a st).1.success = true
        · rw [if_pos hsucc]
          exact ih _ _ n hn
        · rw [if_neg hsucc]
          exact ih _ _ n hn
      · rw [if_neg hmem]
        by_cases hsucc : (dl a st).1.success = true
        · rw [if_pos hsucc]
          exact ih _ _ n (Nat.le_trans hn (Nat.le_succ _))
        · rw [if_neg hsucc]
          exact ih _ _ n (Nat.le_trans hn (Nat.le_succ _))

theorem childLoop_nfa_eq (w : World) (dl : String → St → DLResult × St) (indexUrl : String) :
    ∀ (subs : List String) (acc : LoopAcc) (st : St),
      (childLoop w dl indexUrl subs acc st).1.newFeedsAdded = acc.newFeedsAdded →
      ∀ sub ∈ subs, ∀ a, resolveSub w indexUrl sub = some a → a ∈ acc.feeds := by
  intro subs
  induction subs with
  | nil =>
    intro acc st _ sub h
    exact absurd h (List.not_mem_nil _)
  | cons sub0 rest ih =>
    intro acc st heq sub hmem0 a hres
    rw [childLoop] at heq
    rcases List.mem_cons.mp hmem0 with he | ht
    all_goals cases hres0 : resolveSub w indexUrl sub0 with
    | none =>
      rw [hres0] at heq
      dsimp only at heq
      rcases List.mem_cons.mp hmem0 with he' | ht'
      · subst he'
        rw [hres0] at hres
        exact Option.noConfusion hres
      · exact ih _ _ heq sub ht' a hres
    | some b =>
      rw [hres0] at heq
      dsimp only at heq
      by_cases hmem : acc.feeds.contains b = true
      · rw [if_pos hmem] at heq
        have hrec : ∀ sub ∈ rest, ∀ a, resolveSub w indexUrl sub = some a → a ∈ acc.feeds := by
          by_cases hsucc : (dl b st).1.success = true
          · rw [if_pos hsucc] at heq
            exact fun s hs a2 hr => ih _ _ heq s hs a2 hr
          · rw [if_neg hsucc] at heq
            exact fun s hs a2 hr => ih _ _ heq s hs a2 hr
        rcases List.mem_cons.mp hmem0 with he' | ht'
        · subst he'
          rw [hres0] at hres
          have hab : b = a := Option.some_inj.mp hres
          subst hab
          simpa using hmem
        · exact hrec sub ht' a hres
      · exfalso
        rw [if_neg hmem] at heq
        by_cases hsucc : (dl b st).1.success = true
        · rw [if_pos hsucc] at heq
          dsimp only at heq
          have hmono := childLoop_nfa_mono w dl indexUrl rest
            { totalNewUrls := if (dl b st).1.newUrls ≠ [] then
                acc.totalNewUrls ++ (dl b st).1.newUrls else acc.totalNewUrls,
              successCount := acc.successCount + 1, errorCount := acc.errorCount,
              feeds := acc.feeds ++ [b], newFeedsAdded := acc.newFeedsAdded + 1 }
            (dl b st).2 (acc.newFeedsAdded + 1) (Nat.le_refl _)
          omega
        · rw [if_neg hsucc] at heq
          dsimp only at heq
          have hmono := childLoop_nfa_mono w dl indexUrl rest
            { totalNewUrls := acc.totalNewUrls, successCount := acc.successCount,
              errorCount := acc.errorCount + 1,
              feeds := acc.feeds ++ [b], newFeedsAdded := acc.newFeedsAdded + 1 }
            (dl b st).2 (acc.newFeedsAdded + 1) (Nat.le_refl _)
          omega

theorem childLoop_getFeeds_mono (w : World) (dl : String → St → DLResult × St)
    (indexUrl : String)
    (hdl : ∀ u s x, x ∈ getFeeds s → x ∈ getFeeds (dl u s).2) :
    ∀ (subs : List String) (acc : LoopAcc) (st : St) (x : String),
      x ∈ getFeeds st → x ∈ getFeeds (childLoop w dl indexUrl subs acc st).2 := by
  intro subs
  induction subs with
  | nil => intro acc st x hx; exact hx
  | cons sub rest ih =>
    intro acc st x hx
    simp only [childLoop]
    cases hres : resolveSub w indexUrl sub with
    | none =>
      dsimp only
      exact ih _ _ x hx
    | some a =>
      dsimp only
      exact ih _ _ x (hdl a st x hx)

theorem downloadSitemap_getFeeds_mono (w : World) :
    ∀ (fuel : Nat) (url : String) (force : Bool) (st : St) (x : String),
      x ∈ getFeeds st → x ∈ getFeeds (downloadSitemap w fuel url force st).2 := by
  intro fuel
  induction fuel with
  | zero => intro url force st x hx; exact hx
  | succ n ih =>
    intro url force st x hx
    simp only [downloadSitemap]
    split
    · split
      · split
        · exact hx
        · exact hx
      · exact hx
    · cases hfetch : w.fetch url with
      | none => exact hx
      | some newContent =>
        dsimp only
        split
        · simp only [processSitemapIndexGo]
          split
          · exact hx
          · split
            · rw [getFeeds_putKV_self]
              exact childLoop_feeds_mono w _ url _ _ _ x hx
            · exact childLoop_getFeeds_mono w _ url
                (fun u s y hy => ih u false s y hy) _ _ _ x hx
        · rw [getFeeds_putKV_ne _ _ (last_ne_feeds _), getFeeds_putKV_ne _ _ (dated_ne_feeds _ _),
            getFeeds_putKV_ne _ _ (cur_ne_feeds _)]
          split
          · rw [getFeeds_putKV_ne _ _ (lat_ne_feeds _)]
            exact hx
          · exact hx

/-! ## Frame lemmas: which keys a download can touch -/

theorem FrameStep_rfl (w : World) (st : St) : FrameStep w st st :=
  ⟨[], rfl, fun _ hk => absurd rfl hk⟩

theorem FrameStep_log (w : World) (st : St) (url : String) :
    FrameStep w st { st with fetched := url :: st.fetched } :=
  ⟨[url], rfl, fun _ hk => absurd rfl hk⟩

theorem FrameStep_trans {w : World} {st1 st2 st3 : St}
    (h12 : FrameStep w st1 st2) (h23 : FrameStep w st2 st3) : FrameStep w st1 st3 := by
  obtain ⟨l1, hf1, hk1⟩ := h12
  obtain ⟨l2, hf2, hk2⟩ := h23
  refine ⟨l2 ++ l1, by rw [hf2, hf1, List.append_assoc], ?_⟩
  intro k hk
  by_cases h2 : st3.kv k = st2.kv k
  · rcases hk1 k (fun he => hk (h2.trans he)) with h | ⟨u, hu, hni, hcn⟩
    · exact Or.inl h
    · exact Or.inr ⟨u, List.mem_append_right _ hu, hni, hcn⟩
  · rcases hk2 k h2 with h | ⟨u, hu, hni, hcn⟩
    · exact Or.inl h
    · exact Or.inr ⟨u, List.mem_append_left _ hu, hni, hcn⟩

theorem FrameStep_putKV_feeds (w : World) (st : St) (v : Val) :
    FrameStep w st (putKV st feedsKey v) := by
  refine ⟨[], rfl, ?_⟩
  intro k hk
  left
  by_contra hne
  exact hk (putKV_kv_ne _ _ _ hne)

theorem childLoop_frame (w : World) (dl : String → St → DLResult × St) (indexUrl : String)
    (hdl : ∀ u s, FrameStep w s (dl u s).2) :
    ∀ (subs : List String) (acc : LoopAcc) (st : St),
      FrameStep w st (childLoop w dl indexUrl subs acc st).2 := by
  intro subs
  induction subs with
  | nil => intro acc st; exact FrameStep_rfl w st
  | cons sub rest ih =>
    intro acc st
    simp only [childLoop]
    cases hres : resolveSub w indexUrl sub with
    | none =>
      dsimp only
      exact ih _ _
    | some a =>
      dsimp only
      exact FrameStep_trans (hdl a st) (ih _ _)

theorem processSitemapIndexGo_frame (w : World) (dl : String → St → DLResult × St)
    (indexUrl indexContent : String) (hdl : ∀ u s, FrameStep w s (dl u s).2) (st : St) :
    FrameStep w st (processSitemapIndexGo w dl indexUrl indexContent st).2 := by
  simp only [processSitemapIndexGo]
  split
  · exact FrameStep_rfl w st
  · dsimp only
    split
    · exact FrameStep_trans (childLoop_frame w dl indexUrl hdl _ _ _)
        (FrameStep_putKV_feeds w _ _)
    · exact childLoop_frame w dl indexUrl hdl _ _ _

theorem downloadSitemap_frame (w : World) :
    ∀ (fuel : Nat) (url : String) (force : Bool) (st : St),
      FrameStep w st (downloadSitemap w fuel url force st).2 := by
  intro fuel
  induction fuel with
  | zero => intro url force st; exact FrameStep_rfl w st
  | succ n ih =>
    intro url force st
    simp only [downloadSitemap]
    split
    · split
      · split
        · exact FrameStep_rfl w st
        · exact FrameStep_rfl w st
      · exact FrameStep_rfl w st
    · cases hfetch : w.fetch url with
      | none => exact FrameStep_log w st url
      | some newContent =>
        dsimp only
        split
        · exact FrameStep_trans (FrameStep_log w st url)
            (processSitemapIndexGo_frame w _ url newContent (fun u s => ih u false s) _)
        · rename_i hidx
          refine ⟨[url], ?_, ?_⟩
          · show (putKV _ _ _).fetched = _
            rw [putKV_fetched, putKV_fetched, putKV_fetched]
            split
            · rw [putKV_fetched]
              rfl
            · rfl
          · intro k hk
            right
            refine ⟨url, by simp, ⟨newContent, hfetch, hidx⟩, ?_⟩
            by_contra hnotin
            apply hk
            simp only [contentKeys, List.mem_cons, List.not_mem_nil, or_false,
              not_or] at hnotin
            obtain ⟨hn1, hn2, hn3, hn4⟩ := hnotin
            rw [putKV_kv_ne _ _ _ hn4, putKV_kv_ne _ _ _ hn3, putKV_kv_ne _ _ _ hn1]
            split
            · rw [putKV_kv_ne _ _ _ hn2]
            · rfl

theorem contentKeys_ne_feeds (w : World) {u k : String} (hk : k ∈ contentKeys w u) :
    k ≠ feedsKey := by
  simp only [contentKeys, List.mem_cons, List.not_mem_nil, or_false] at hk
  rcases hk with h | h | h | h <;> subst h
  · exact cur_ne_feeds _
  · exact lat_ne_feeds _
  · exact dated_ne_feeds _ _
  · exact last_ne_feeds _

theorem contentKeys_inter (w : World) {u v k : String}
    (hu : k ∈ contentKeys w u) (hv : k ∈ contentKeys w v) :
    generateUrlHash u = generateUrlHash v := by
  simp only [contentKeys, List.mem_cons, List.not_mem_nil, or_false] at hu hv
  rcases hu with h1 | h1 | h1 | h1 <;> subst h1 <;>
    rcases hv with h2 | h2 | h2 | h2
  · exact append_left_cancel_str h2
  · exact absurd h2 (cur_ne_lat _ _)
  · exact absurd h2 (cur_ne_dated _ _ _)
  · exact absurd h2 (cur_ne_last _ _)
  · exact absurd h2.symm (cur_ne_lat _ _)
  · exact append_left_cancel_str h2
  · exact absurd h2 (lat_ne_dated _ _ _)
  · exact absurd h2 (lat_ne_last _ _)
  · exact absurd h2.symm (cur_ne_dated _ _ _)
  · exact absurd h2.symm (lat_ne_dated _ _ _)
  · exact append_mid_cancel h2
  · exact absurd h2.symm (last_ne_dated _ _ _)
  · exact absurd h2.symm (cur_ne_last _ _)
  · exact absurd h2.symm (lat_ne_last _ _)
  · exact absurd h2 (last_ne_dated _ _ _)
  · exact append_left_cancel_str h2

/-- C5: for every sitemap-index content listing at least one child URL,
`processSitemapIndex` (the spec's `expandIndex`) reports success with the
child count; its `newUrls` is exactly the concatenation of the new URLs
discovered by the successful children, and `successCount`/`errorCount` count
the children whose resolution-plus-download succeeded resp. failed — with the
per-child outcomes given by `specChildOutcomes`, which resolves each child
against the index's origin when relative (`resolveSub`) and runs the full
download cycle on each resolved child, threading the state left to right.
Every child that resolves is contained in the monitored set persisted in the
final state. -/
theorem processSitemapIndex_expandIndex (w : World) (fuel : Nat)
    (indexUrl content : String) (st : St)
    (hsubs : extractSitemapUrls content ≠ []) :
    (processSitemapIndex w fuel indexUrl content st).1.success = true ∧
    (processSitemapIndex w fuel indexUrl content st).1.subSitemaps =
      some (extractSitemapUrls content).length ∧
    (processSitemapIndex w fuel indexUrl content st).1.newUrls =
      successNewUrls (specChildOutcomes w (fun u s => downloadSitemap w fuel u false s)
        indexUrl (extractSitemapUrls content) st).1 ∧
    (processSitemapIndex w fuel indexUrl content st).1.successCount =
      some (okCount (specChildOutcomes w (fun u s => downloadSitemap w fuel u false s)
        indexUrl (extractSitemapUrls content) st).1) ∧
    (processSitemapIndex w fuel indexUrl content st).1.errorCount =
      some (failCount (specChildOutcomes w (fun u s => downloadSitemap w fuel u false s)
        indexUrl (extractSitemapUrls content) st).1) ∧
    ∀ sub ∈ extractSitemapUrls content, ∀ a, resolveSub w indexUrl sub = some a →
      a ∈ getFeeds (processSitemapIndex w fuel indexUrl content st).2 := by
  have hne : ¬((extractSitemapUrls content).isEmpty = true) := by
    simpa [List.isEmpty_iff] using hsubs
  have hspec := childLoop_spec w (fun u s => downloadSitemap w fuel u false s) indexUrl
    (extractSitemapUrls content) ⟨[], 0, 0, getFeeds st, 0⟩ st
  simp only [processSitemapIndex, processSitemapIndexGo]
  rw [if_neg hne]
  dsimp only
  refine ⟨rfl, rfl, ?_, ?_, ?_, ?_⟩
  · rw [hspec.2.1]
    dsimp only
    rw [List.nil_append]
  · rw [hspec.2.2.1]
    dsimp only
    rw [Nat.zero_add]
  · rw [hspec.2.2.2]
    dsimp only
    rw [Nat.zero_add]
  · intro sub hsub a hres
    split
    · rw [getFeeds_putKV_self]
      exact childLoop_feeds_mem w _ indexUrl _ _ _ sub a hsub hres
    · rename_i hn
      have h0 : (childLoop w (fun u s => downloadSitemap w fuel u false s) indexUrl
          (extractSitemapUrls content) ⟨[], 0, 0, getFeeds st, 0⟩ st).1.newFeedsAdded = 0 :=
        Nat.eq_zero_of_not_pos hn
      have hin := childLoop_nfa_eq w _ indexUrl _ _ _ h0 sub hsub a hres
      exact childLoop_getFeeds_mono w _ indexUrl
        (fun u s y hy => downloadSitemap_getFeeds_mono w fuel u false s y hy) _ _ _ a hin

theorem processSitemapIndex_expandIndex_witness :
    extractSitemapUrls idxDoc ≠ [] ∧
    (processSitemapIndex wIdx 1 "http://i/idx.xml" idxDoc stEmpty).1.successCount = some 1 ∧
    "http://e/c1.xml" ∈
      getFeeds (processSitemapIndex wIdx 1 "http://i/idx.xml" idxDoc stEmpty).2 := by
  have h := processSitemapIndex_expandIndex wIdx 1 "http://i/idx.xml" idxDoc stEmpty
    (by decide)
  refine ⟨by decide, ?_, h.2.2.2.2.2 "http://e/c1.xml" (by decide) "http://e/c1.xml"
    (by decide)⟩
  rw [h.2.2.2.1]
  decide

/-- C10 (amended): whenever a non-skip `downloadSitemap` fetches content whose
root classifies as a sitemap index, it delegates entirely to
`processSitemapIndex` — the returned result and state are exactly those of the
expansion, and no `current`/`latest`/`archive`/`last_update` key is written
directly for the index URL.  Those four keys of the index URL are unchanged
provided no URL fetched during the expansion with non-index content shares the
index URL's hash; a hash-aliased child (e.g. the same URL with a trailing
slash) violates this proviso and can write them — then the same-day skip guard
does fire for the index feed, as the counterexample records. -/
theorem downloadSitemap_index_delegates (w : World) (fuel : Nat) (url content : String)
    (forceUpdate : Bool) (st : St)
    (hskip : forceUpdate = true ∨
      jsGet st ("last_update_" ++ generateUrlHash url) ≠ some w.today)
    (hfetch : w.fetch url = some content)
    (hidx : rootTagName content = some "sitemapindex") :
    downloadSitemap w (fuel + 1) url forceUpdate st =
      processSitemapIndex w fuel url content { st with fetched := url :: st.fetched } ∧
    ((∀ u, u ∈ (downloadSitemap w (fuel + 1) url forceUpdate st).2.fetched →
        generateUrlHash u = generateUrlHash url → ¬ nonIndexFetched w u) →
      ∀ k ∈ contentKeys w url,
        (downloadSitemap w (fuel + 1) url forceUpdate st).2.kv k = st.kv k) := by
  have hcond : ¬(forceUpdate = false ∧
      jsGet st ("last_update_" ++ generateUrlHash url) = some w.today) := by
    rintro ⟨h1, h2⟩
    rcases hskip with h | h
    · rw [h] at h1
      exact Bool.noConfusion h1
    · exact h h2
  have heq : downloadSitemap w (fuel + 1) url forceUpdate st =
      processSitemapIndex w fuel url content { st with fetched := url :: st.fetched } := by
    simp only [downloadSitemap]
    rw [if_neg hcond]
    simp only [hfetch]
    rw [if_pos hidx]
    rfl
  refine ⟨heq, ?_⟩
  intro hcoll k hk
  rw [heq] at hcoll ⊢
  obtain ⟨l, hfl, hkv⟩ := processSitemapIndexGo_frame w
    (fun u s => downloadSitemap w fuel u false s) url content
    (fun u s => downloadSitemap_frame w fuel u false s)
    { st with fetched := url :: st.fetched }
  by_contra hne
  rcases hkv k hne with h | ⟨u, hu, hni, hcn⟩
  · exact contentKeys_ne_feeds w hk h
  · have humem : u ∈ (processSitemapIndex w fuel url content
        { st with fetched := url :: st.fetched }).2.fetched := by
      rw [show (processSitemapIndex w fuel url content
          { st with fetched := url :: st.fetched }).2.fetched =
        l ++ ({ st with fetched := url :: st.fetched } : St).fetched from hfl]
      exact List.mem_append_left _ hu
    exact hcoll u humem (contentKeys_inter w hcn hk) hni

theorem downloadSitemap_index_delegates_witness :
    (wIdx.fetch "http://i/idx.xml" = some idxDoc ∧
     rootTagName idxDoc = some "sitemapindex" ∧
     jsGet stEmpty ("last_update_" ++ generateUrlHash "http://i/idx.xml") ≠
       some wIdx.today) ∧
    (downloadSitemap wIdx 2 "http://i/idx.xml" false stEmpty).2.kv
      ("last_update_" ++ generateUrlHash "http://i/idx.xml") = none := by
  have hfetched : (downloadSitemap wIdx 2 "http://i/idx.xml" false stEmpty).2.fetched =
      ["http://e/c1.xml", "http://i/idx.xml"] := by decide
  have hcoll : ∀ u, u ∈ (downloadSitemap wIdx 2 "http://i/idx.xml" false stEmpty).2.fetched →
      generateUrlHash u = generateUrlHash "http://i/idx.xml" →
      ¬ nonIndexFetched wIdx u := by
    intro u hu hhash
    rw [hfetched] at hu
    rcases List.mem_cons.mp hu with rfl | hu2
    · exact absurd hhash (by decide)
    · rcases List.mem_cons.mp hu2 with rfl | hu3
      · rintro ⟨c, hc, hr⟩
        rw [show wIdx.fetch "http://i/idx.xml" = some idxDoc from rfl] at hc
        rw [show c = idxDoc from (Option.some_inj.mp hc).symm] at hr
        exact hr (by decide)
      · exact absurd hu3 (List.not_mem_nil _)
  have h := (downloadSitemap_index_delegates wIdx 1 "http://i/idx.xml" idxDoc false stEmpty
    (Or.inr (by decide)) (by decide) (by decide)).2 hcoll
    ("last_update_" ++ generateUrlHash "http://i/idx.xml") (by simp [contentKeys])
  exact ⟨⟨by decide, by decide, by decide⟩, h⟩

end SitemapDiff
